import Mathlib

/-!
Verification of the reader3 export pipeline (markdown_exporter.py,
export_service.py, image_processor.py, backend/main.py) against its
natural-language specification.

The Python sources are shallowly embedded as executable Lean definitions.
External libraries (BeautifulSoup, markdownify, yaml, base64, mimetypes,
weasyprint, the EPUB parser) are modelled as opaque function parameters
collected in `ExportCtx`; all control flow and string assembly written in
the repository itself is translated directly.  The filesystem is modelled
as an association list, and Python exceptions as `Except` / `Option`
results.
-/

namespace Reader3

/- ### Data model

The `reader3` module (`Book`, `BookMetadata`, `ChapterContent`, `TOCEntry`)
is not under `src/`; only its consumers are.  Modelled from the spec, §3:
metadata with required title/authors/language and optional
publisher/date/description; a spine of chapters carrying raw HTML; a forest
of TOC entries; an image map. -/

structure BookMetadata where
  title : String
  authors : List String
  language : String
  publisher : Option String
  date : Option String
  description : Option String
deriving Repr, DecidableEq

structure ChapterContent where
  title : String
  href : String
  content : String
deriving Repr, DecidableEq

inductive TOCEntry where
  | mk (title : String) (children : List TOCEntry)

def TOCEntry.title : TOCEntry → String
  | .mk t _ => t

def TOCEntry.children : TOCEntry → List TOCEntry
  | .mk _ c => c

structure Book where
  metadata : BookMetadata
  spine : List ChapterContent
  toc : List TOCEntry
  images : List (String × String)

/- ### Generic association-list helpers (model of dict / directory lookups) -/

def alookup {α : Type} : List (String × α) → String → Option α
  | [], _ => none
  | (k, v) :: rest, key => if k = key then some v else alookup rest key

/-- Model of writing a file into a directory or map: replace in place if the
name exists, append otherwise (mirrors how a filesystem directory evolves). -/
def upsert {α : Type} : List (String × α) → String → α → List (String × α)
  | [], key, v => [(key, v)]
  | (k, w) :: rest, key, v =>
    if k = key then (key, v) :: rest else (k, w) :: upsert rest key v

/- ### `sanitize_filename` (export_service.py, lines 52-101)

Implemented on `List Char`.  Python regex classes are modelled over the
ASCII range: `\w` is `[A-Za-z0-9_]` (the claims only exercise ASCII data). -/

def isInvalidFileChar (c : Char) : Bool :=
  c = '/' || c = '\\' || c = ':' || c = '*' || c = '?' || c = '"' ||
  c = '<' || c = '>' || c = '|'

def isWordKeepChar (c : Char) : Bool :=
  c.isAlphanum || c = '_' || c = '-' || c = '.'

/-- Model of `re.sub(r'_+', '_', s)`: collapse each run of underscores to a
single underscore.  The boolean records whether the previous character kept
was an underscore. -/
def collapseUnders : Bool → List Char → List Char
  | _, [] => []
  | prevU, c :: rest =>
    if c = '_' then
      if prevU then collapseUnders true rest
      else '_' :: collapseUnders true rest
    else c :: collapseUnders false rest

/-- Model of `s.strip('_')`. -/
def stripUnders (l : List Char) : List Char :=
  ((l.dropWhile (fun c => c = '_')).reverse.dropWhile (fun c => c = '_')).reverse

/-- Model of `s.rstrip('_')`. -/
def rstripUnders (l : List Char) : List Char :=
  (l.reverse.dropWhile (fun c => c = '_')).reverse

def sanitizeChars (l : List Char) (maxLength : Nat) : List Char :=
  if l.all (fun c => c.isWhitespace) then "book_export".data
  else
    let s1 := l.filter (fun c => !isInvalidFileChar c)
    let s2 := s1.map (fun c => if c = ' ' then '_' else c)
    let s3 := s2.filter isWordKeepChar
    let s4 := collapseUnders false s3
    let s5 := stripUnders s4
    let s6 := if maxLength < s5.length then rstripUnders (s5.take maxLength) else s5
    if s6 = [] then "book_export".data else s6

/-- `sanitize_filename(title, max_length=200)`.  The leading emptiness test
`not title or not title.strip()` is the all-whitespace test (an empty string
is vacuously all-whitespace). -/
def sanitize_filename (title : String) (maxLength : Nat) : String :=
  ⟨sanitizeChars title.data maxLength⟩

/- ### Zero-padded index (`f"{i:02d}"`) -/

/-- Model of the Python format `f"{i:02d}"`: the decimal representation,
left-padded with a zero to width 2. -/
def pad2 (i : Nat) : String :=
  if i < 10 then "0" ++ Nat.repr i else Nat.repr i

/- ### `os.path.basename` (keep everything after the last slash) -/

def basename (s : String) : String :=
  ⟨(s.data.reverse.takeWhile (fun c => c ≠ '/')).reverse⟩

/-- Model of Python `str.lower` / `String.toLower`: lowercase every
character. -/
def strToLower (s : String) : String :=
  ⟨s.data.map Char.toLower⟩

/-- Model of Python `str.endswith` (and of `String.endsWith`): the suffix
characters close the string. -/
def strEndsWith (s suffix : String) : Bool :=
  decide (suffix.data.length ≤ s.data.length) &&
    decide (s.data.drop (s.data.length - suffix.data.length) = suffix.data)

/- ### External collaborators

Everything the repository delegates to a library is a field here; the
repository's own logic never inspects these functions' outputs beyond
passing them along. -/

inductive YamlValue where
  | str (s : String)
  | strList (l : List String)
deriving Repr, DecidableEq

/-- An HTML document as seen by the image-rewriting loops: a sequence of
nodes of which only `<img>` elements (with their `src` attribute, `""` when
absent) are interpreted; everything else is opaque text. -/
inductive HtmlNode where
  | img (src : String)
  | other (s : String)
deriving Repr, DecidableEq

structure ExportCtx where
  /-- `markdownify.markdownify(_, heading_style="ATX")`. -/
  conv : String → String
  /-- `yaml.dump(_, allow_unicode=True, sort_keys=False)`. -/
  yamlDump : List (String × YamlValue) → String
  /-- `BeautifulSoup(_, 'html.parser')`. -/
  parseHtml : String → List HtmlNode
  /-- `str(soup)`, serialization of a (rewritten) parse tree. -/
  serializeHtml : List HtmlNode → String
  /-- `base64.b64encode(_).decode('utf-8')`. -/
  b64 : String → String
  /-- `mimetypes.guess_type(_)[0]`. -/
  guessMime : String → Option String
  /-- The external print-layout engine: `weasyprint.HTML(...).write_pdf`
  together with the fixed stylesheet from `generate_pdf_css`. -/
  renderPdf : String → String
  /-- Contents of `books/<book_id>/images/`, keyed by book id then by image
  filename.  `none` means the file does not exist or cannot be read (the
  code folds read and encode failures into the same missing-image path). -/
  imageFs : String → String → Option String

/- ### ImageProcessor (image_processor.py) -/

/-- Lowercased extension of a filename (`os.path.splitext(filename.lower())[1]`). -/
def extOf (filename : String) : String :=
  let low := filename.toLower.data
  let tail := low.reverse.takeWhile (fun c => c ≠ '.' && c ≠ '/')
  if (low.reverse.drop tail.length).head? = some '.' then ⟨'.' :: tail.reverse⟩ else ""

/-- Fallback extension → MIME table of `ImageProcessor.get_mime_type`. -/
def extMimeFallback (ext : String) : String :=
  if ext = ".jpg" then "image/jpeg"
  else if ext = ".jpeg" then "image/jpeg"
  else if ext = ".png" then "image/png"
  else if ext = ".gif" then "image/gif"
  else if ext = ".bmp" then "image/bmp"
  else if ext = ".webp" then "image/webp"
  else if ext = ".svg" then "image/svg+xml"
  else "image/jpeg"

def get_mime_type (ctx : ExportCtx) (filename : String) : String :=
  match ctx.guessMime filename with
  | some m => m
  | none => extMimeFallback (extOf filename)

/-- Memoization cache of one `ImageProcessor` instance: filename → data URI. -/
abbrev ImageCache : Type := List (String × String)

/-- `ImageProcessor.get_base64_data_uri`.  The directory for one book is
`ctx.imageFs bookId`; a `none` lookup covers both the missing-file check and
the caught read/encode exception (both return `None` in the source).  The
function is total: no outcome raises. -/
def get_base64_data_uri (ctx : ExportCtx) (bookId : String) (cache : ImageCache)
    (imageFilename : String) : Option String × ImageCache :=
  match alookup cache imageFilename with
  | some v => (some v, cache)
  | none =>
    match ctx.imageFs bookId imageFilename with
    | none => (none, cache)
    | some bytes =>
      let dataUri := "data:" ++ get_mime_type ctx imageFilename ++ ";base64," ++ ctx.b64 bytes
      (some dataUri, upsert cache imageFilename dataUri)

/- ### Image rewriting loop

The loop `for img in soup.find_all('img'): ...` appears verbatim in both
`html_to_markdown` (markdown_exporter.py) and `combine_chapters_html`
(pdf_exporter.py); it is embedded once. -/

def rewriteImages (ctx : ExportCtx) (bookId : String) :
    List HtmlNode → ImageCache → List HtmlNode × ImageCache
  | [], cache => ([], cache)
  | .other s :: rest, cache =>
    let (r, c) := rewriteImages ctx bookId rest cache
    (.other s :: r, c)
  | .img src :: rest, cache =>
    if src = "" then
      let (r, c) := rewriteImages ctx bookId rest cache
      (.img src :: r, c)
    else
      match get_base64_data_uri ctx bookId cache (basename src) with
      | (some uri, c1) =>
        let (r, c) := rewriteImages ctx bookId rest c1
        (.img uri :: r, c)
      | (none, c1) =>
        let (r, c) := rewriteImages ctx bookId rest c1
        (.img src :: r, c)

/-- `html_to_markdown` (markdown_exporter.py, lines 52-88): parse, rewrite
image sources, serialize, convert to Markdown.  The memoization cache of the
per-export `ImageProcessor` is threaded through. -/
def html_to_markdown (ctx : ExportCtx) (bookId : String) (html : String)
    (cache : ImageCache) : String × ImageCache :=
  let soup := ctx.parseHtml html
  let (soup1, cache1) := rewriteImages ctx bookId soup cache
  (ctx.conv (ctx.serializeHtml soup1), cache1)

/- ### Frontmatter (`generate_frontmatter`, markdown_exporter.py lines 22-49) -/

/-- Python truthiness of an optional string field (`if metadata.publisher:`). -/
def optTruthy : Option String → Bool
  | some s => s ≠ ""
  | none => false

def frontmatterFields (m : BookMetadata) : List (String × YamlValue) :=
  [("title", .str m.title), ("authors", .strList m.authors),
   ("language", .str m.language)] ++
  (if optTruthy m.publisher then [("publisher", .str (m.publisher.getD ""))] else []) ++
  (if optTruthy m.date then [("date", .str (m.date.getD ""))] else []) ++
  (if optTruthy m.description then [("description", .str (m.description.getD ""))] else [])

def generate_frontmatter (ctx : ExportCtx) (m : BookMetadata) : String :=
  "---\n" ++ ctx.yamlDump (frontmatterFields m) ++ "---\n\n"

/- ### `generate_toc_markdown` (markdown_exporter.py, lines 154-185) -/

/-- Model of `"  " * level`. -/
def indentOf (level : Nat) : String :=
  ⟨List.replicate (2 * level) ' '⟩

/-- The link text chosen for one entry: in-document anchor in `'single'`
mode, generated filename otherwise.  `i` is the `enumerate` index of the
entry among its siblings. -/
def tocLink (mode : String) (i : Nat) (title : String) : String :=
  if mode = "single" then "[" ++ title ++ "](#chapter-" ++ Nat.repr i ++ ")"
  else "[" ++ title ++ "](" ++ pad2 i ++ "_" ++ sanitize_filename title 200 ++ ".md)"

mutual
def genTocEntry (e : TOCEntry) (mode : String) (level i : Nat) : String :=
  match e with
  | .mk t children =>
    indentOf level ++ "- " ++ tocLink mode i t ++ "\n" ++
      (if children.isEmpty then "" else genTocList children mode (level + 1) 0)

def genTocList (toc : List TOCEntry) (mode : String) (level i : Nat) : String :=
  match toc with
  | [] => ""
  | e :: rest => genTocEntry e mode level i ++ genTocList rest mode level (i + 1)
end

/-- `generate_toc_markdown(toc, mode, level=0)`; the `enumerate` counter of
each call starts at 0. -/
def generate_toc_markdown (toc : List TOCEntry) (mode : String)
    (level : Nat) : String :=
  genTocList toc mode level 0

/- ### `export_single_file` (markdown_exporter.py, lines 91-151)

The function builds a Python list `output` of string fragments and joins it.
The fragments are embedded as a list of `Seg`; `Seg.sep` marks exactly the
fragments appended by the between-chapters statement
`output.append("\n\n---\n\n")`, every other append is `Seg.text`.  Rendering
a `Seg` recovers the exact string the source appends, so joining the
rendered list is the exact file content the source writes. -/

inductive Seg where
  | text (s : String)
  | sep
deriving Repr, DecidableEq

def Seg.render : Seg → String
  | .text s => s
  | .sep => "\n\n---\n\n"

/-- The chapter loop of `export_single_file`: anchor, heading, converted
content per chapter, and a separator after every chapter except the last
(`if i < len(book.spine) - 1`).  `total` is `len(book.spine)`. -/
def singleChapterLoop (ctx : ExportCtx) (bookId : String) :
    List ChapterContent → Nat → Nat → ImageCache → List Seg × ImageCache
  | [], _, _, cache => ([], cache)
  | ch :: rest, i, total, cache =>
    let (mdc, cache1) := html_to_markdown ctx bookId ch.content cache
    let segs := [Seg.text ("<a id=\"chapter-" ++ Nat.repr i ++ "\"></a>\n\n"),
                 Seg.text ("## Chapter " ++ Nat.repr (i + 1) ++ "\n\n"),
                 Seg.text mdc] ++
                (if i < total - 1 then [Seg.sep] else [])
    let (restSegs, cache2) := singleChapterLoop ctx bookId rest (i + 1) total cache1
    (segs ++ restSegs, cache2)

def exportSingleFileSegs (ctx : ExportCtx) (book : Book) (bookId : String) : List Seg :=
  [Seg.text (generate_frontmatter ctx book.metadata),
   Seg.text ("# " ++ book.metadata.title ++ "\n\n"),
   Seg.text "## Table of Contents\n\n",
   Seg.text (generate_toc_markdown book.toc "single" 0),
   Seg.text "\n---\n\n"] ++
  (singleChapterLoop ctx bookId book.spine 0 book.spine.length []).1

/-- The exact content `export_single_file` writes to its output file. -/
def exportSingleFileContent (ctx : ExportCtx) (book : Book) (bookId : String) : String :=
  String.join ((exportSingleFileSegs ctx book bookId).map Seg.render)

/- ### Filesystem model for written artifacts -/

inductive FileData where
  | text (s : String)
  | zip (entries : List (String × String))

/-- Paths → file contents; `upsert` models `open(path, 'w')`. -/
abbrev FS : Type := List (String × FileData)

def exportsDir (bookId : String) : String :=
  "books/" ++ bookId ++ "/exports/"

def export_single_file (ctx : ExportCtx) (fs : FS) (book : Book) (bookId : String) :
    FS × String :=
  let path := exportsDir bookId ++ sanitize_filename book.metadata.title 200 ++ "_single.md"
  (upsert fs path (.text (exportSingleFileContent ctx book bookId)), path)

/- ### `export_chapters` (markdown_exporter.py, lines 188-255) -/

/-- `chapter.title if chapter.title else f"Chapter_{i+1}"` (empty string is
the only falsy `str`). -/
def effectiveChapterTitle (i : Nat) (ch : ChapterContent) : String :=
  if ch.title = "" then "Chapter_" ++ Nat.repr (i + 1) else ch.title

/-- `f"{i:02d}_{sanitize_filename(chapter_title)}.md"`. -/
def chapterFileName (i : Nat) (ch : ChapterContent) : String :=
  pad2 i ++ "_" ++ sanitize_filename (effectiveChapterTitle i ch) 200 ++ ".md"

/-- The temporary directory `export_chapters` assembles before zipping:
filename → file content. -/
abbrev TempDir : Type := List (String × String)

def chapterFilesLoop (ctx : ExportCtx) (bookId : String) :
    List ChapterContent → Nat → TempDir → ImageCache → TempDir × ImageCache
  | [], _, dir, cache => (dir, cache)
  | ch :: rest, i, dir, cache =>
    let (mdc, cache1) := html_to_markdown ctx bookId ch.content cache
    let content := "# " ++ effectiveChapterTitle i ch ++ "\n\n" ++ mdc
    chapterFilesLoop ctx bookId rest (i + 1) (upsert dir (chapterFileName i ch) content) cache1

def readmeContent (ctx : ExportCtx) (book : Book) : String :=
  generate_frontmatter ctx book.metadata ++ "# " ++ book.metadata.title ++ "\n\n" ++
    "## Table of Contents\n\n" ++ generate_toc_markdown book.toc "chapters" 0

/-- All files of the temporary directory, in creation order: `README.md`
first, then one file per spine chapter. -/
def exportChaptersTempDir (ctx : ExportCtx) (book : Book) (bookId : String) : TempDir :=
  (chapterFilesLoop ctx bookId book.spine 0
    (upsert ([] : TempDir) "README.md" (readmeContent ctx book)) []).1

/-- The archive members of the produced ZIP: `os.walk` over the (flat)
temporary directory, each member stored under its path relative to the
archive root. -/
def zipEntries (ctx : ExportCtx) (book : Book) (bookId : String) : List (String × String) :=
  exportChaptersTempDir ctx book bookId

def zipEntryNames (ctx : ExportCtx) (book : Book) (bookId : String) : List String :=
  (zipEntries ctx book bookId).map Prod.fst

def export_chapters (ctx : ExportCtx) (fs : FS) (book : Book) (bookId : String) :
    FS × String :=
  let path := exportsDir bookId ++ sanitize_filename book.metadata.title 200 ++ "_chapters.zip"
  (upsert fs path (.zip (zipEntries ctx book bookId)), path)

/- ### `export_pdf` (pdf_exporter.py)

The HTML assembly is the repository's code; the rendering engine (and the
fixed stylesheet handed to it) is external, `ctx.renderPdf`. -/

def generate_title_page (m : BookMetadata) : String :=
  let authors := if m.authors.isEmpty then "Unknown Author"
                 else String.intercalate ", " m.authors
  "\n    <div class=\"title-page\">\n        <h1 class=\"book-title\">" ++ m.title ++
    "</h1>\n        <p class=\"book-authors\">" ++ authors ++ "</p>\n    " ++
  (if optTruthy m.publisher then
    "<p class=\"book-publisher\">" ++ m.publisher.getD "" ++ "</p>\n" else "") ++
  (if optTruthy m.date then
    "<p class=\"book-date\">" ++ m.date.getD "" ++ "</p>\n" else "") ++
  (if optTruthy m.description then
    "<p class=\"book-description\">" ++ m.description.getD "" ++ "</p>\n" else "") ++
  "</div>\n<div class=\x27page-break\x27></div>\n"

def pdfChapterLoop (ctx : ExportCtx) (bookId : String) :
    List ChapterContent → Nat → Nat → ImageCache → List String × ImageCache
  | [], _, _, cache => ([], cache)
  | ch :: rest, i, total, cache =>
    let soup := ctx.parseHtml ch.content
    let (soup1, cache1) := rewriteImages ctx bookId soup cache
    let parts := ["<div class=\"chapter\">\n",
                  "<h2 class=\"chapter-title\">Chapter " ++ Nat.repr (i + 1) ++ "</h2>\n",
                  ctx.serializeHtml soup1,
                  "</div>\n"] ++
                 (if i < total - 1 then ["<div class=\"page-break\"></div>\n"] else [])
    let (restParts, cache2) := pdfChapterLoop ctx bookId rest (i + 1) total cache1
    (parts ++ restParts, cache2)

def combine_chapters_html (ctx : ExportCtx) (bookId : String) (spine : List ChapterContent) :
    String :=
  String.join (pdfChapterLoop ctx bookId spine 0 spine.length []).1

def pdfCompleteHtml (ctx : ExportCtx) (book : Book) (bookId : String) : String :=
  "<!DOCTYPE html>\n<html>\n<head>\n" ++ "<meta charset=\"UTF-8\">\n" ++
    "<title>" ++ book.metadata.title ++ "</title>\n" ++ "</head>\n<body>\n" ++
    generate_title_page book.metadata ++
    combine_chapters_html ctx bookId book.spine ++
    "</body>\n</html>"

def export_pdf (ctx : ExportCtx) (fs : FS) (book : Book) (bookId : String) : FS × String :=
  let path := exportsDir bookId ++ sanitize_filename book.metadata.title 200 ++ ".pdf"
  (upsert fs path (.text (ctx.renderPdf (pdfCompleteHtml ctx book bookId))), path)

/- ### Export service (export_service.py) -/

structure ExportResult where
  file_path : String
  filename : String
  mime_type : String
  cleanup : Bool
deriving Repr, DecidableEq

/-- `BookNotFoundError` is a subclass of `ExportError`; the orchestrator
raises the base class for an unsupported format. -/
inductive ExportErr where
  | notFound (msg : String)
  | unsupportedFormat (msg : String)
deriving Repr, DecidableEq

/-- Outcome of reading and unpickling `books/<book_id>/book.pkl`:
the file may be absent, present but undeserializable, or a valid `Book`. -/
inductive LoadOutcome where
  | missing
  | corrupt
  | ok (b : Book)

abbrev Storage : Type := String → LoadOutcome

/-- `load_book` (export_service.py, lines 104-141): a missing pickle raises
`BookNotFoundError("Book not found: ...")`; any exception during
deserialization is caught and re-raised as
`BookNotFoundError("Failed to load book ...")`. -/
def load_book (storage : Storage) (bookId : String) : Except ExportErr Book :=
  match storage bookId with
  | .missing => .error (.notFound ("Book not found: " ++ bookId))
  | .corrupt => .error (.notFound ("Failed to load book " ++ bookId))
  | .ok b => .ok b

/-- `export_book` (export_service.py, lines 144-193).  Returns the updated
filesystem together with the result; when an error is raised the filesystem
is returned unchanged, mirroring that the source raises before writing. -/
def export_book (ctx : ExportCtx) (storage : Storage) (fs : FS) (bookId : String)
    (format : String) (mode : Option String) : FS × Except ExportErr ExportResult :=
  match load_book storage bookId with
  | .error e => (fs, .error e)
  | .ok book =>
    if format = "markdown" then
      if mode = some "chapters" then
        let (fs1, path) := export_chapters ctx fs book bookId
        (fs1, .ok { file_path := path,
                    filename := sanitize_filename book.metadata.title 200 ++ "_chapters.zip",
                    mime_type := "application/zip", cleanup := true })
      else
        let (fs1, path) := export_single_file ctx fs book bookId
        (fs1, .ok { file_path := path,
                    filename := sanitize_filename book.metadata.title 200 ++ "_single.md",
                    mime_type := "text/markdown", cleanup := true })
    else if format = "pdf" then
      let (fs1, path) := export_pdf ctx fs book bookId
      (fs1, .ok { file_path := path,
                  filename := sanitize_filename book.metadata.title 200 ++ ".pdf",
                  mime_type := "application/pdf", cleanup := true })
    else
      (fs, .error (.unsupportedFormat ("Unsupported format: " ++ format)))

/- ### Backend import path (backend/main.py)

The books directory is modelled as a list of subdirectories (only
directories are listed; `os.path.isdir` filtering is implicit).  Per folder
the model keeps the stripped content of `source.sha256` (`none` when the
file is absent or unreadable, i.e. the `OSError` continue-branch) and the
`load_book_cached` outcome (`none` when `book.pkl` is absent or fails to
unpickle — that loader returns `None` on both). -/

structure BookFolder where
  sourceHash : Option String
  book : Option Book

structure BackendState where
  books : List (String × BookFolder)

/-- `load_book_cached(folder_name)`, collapsed to its return value. -/
def load_book_cached (st : BackendState) (folderName : String) : Option Book :=
  (alookup st.books folderName).bind (fun f => f.book)

/-- `_find_duplicate_by_hash` (backend/main.py, lines 90-108): scan the
books directory, skip entries not named `*_data`, skip folders without a
stored fingerprint, return the first folder whose stored hash equals the
uploaded file's hash. -/
def find_duplicate_by_hash : List (String × BookFolder) → String → Option String
  | [], _ => none
  | (name, f) :: rest, fileHash =>
    if strEndsWith name "_data" then
      match f.sourceHash with
      | some stored =>
        if stored = fileHash then some name else find_duplicate_by_hash rest fileHash
      | none => find_duplicate_by_hash rest fileHash
    else find_duplicate_by_hash rest fileHash

/-- `_sanitize_book_name`: basename without extension, keep alphanumerics
and `._- `, strip, spaces to underscores, fallback `"book"`.  Python's
`str.isalnum` is modelled over ASCII. -/
def sanitize_book_name (filename : String) : String :=
  let base := (basename filename).data
  let lead := base.takeWhile (fun c => c = '.')
  let rest := base.drop lead.length
  let stem := if rest.contains '.' then
      lead ++ (rest.reverse.dropWhile (fun c => c ≠ '.')).tail.reverse
    else base
  let stem1 := (stem.dropWhile (fun c => c.isWhitespace)).reverse.dropWhile
      (fun c => c.isWhitespace) |>.reverse
  if stem1 = [] then "book"
  else
    let safe := stem1.filter (fun c => c.isAlphanum || c = '.' || c = '_' || c = '-' || c = ' ')
    let safe1 := ((safe.dropWhile (fun c => c.isWhitespace)).reverse.dropWhile
      (fun c => c.isWhitespace)).reverse
    let safe2 := safe1.map (fun c => if c = ' ' then '_' else c)
    if safe2 = [] then "book" else ⟨safe2⟩

/-- `_resolve_unique_folder`, with the unbounded `while True` search for a
free suffix given explicit fuel; any fuel larger than the number of existing
folders makes the fallback branch unreachable. -/
def resolveLoop (taken : List String) (base : String) : Nat → Nat → String
  | 0, k => base ++ "_" ++ Nat.repr k ++ "_data"
  | fuel + 1, k =>
    let candidate := base ++ "_" ++ Nat.repr k ++ "_data"
    if taken.contains candidate then resolveLoop taken base fuel (k + 1) else candidate

def resolve_unique_folder (st : BackendState) (base : String) : String :=
  let taken := st.books.map Prod.fst
  let candidate := base ++ "_data"
  if taken.contains candidate then resolveLoop taken base (taken.length + 1) 2
  else candidate

/-- An uploaded file, reduced to what `import_book` inspects: its filename
and the SHA-256 hex digest of its bytes (`_hash_upload_to_temp` — hashing
itself is the external `hashlib`). -/
structure Upload where
  filename : String
  hash : String

inductive ImportResult where
  | badRequest (detail : String)
  | conflict (detail : String)
  | imported (id : String) (title : String)
deriving Repr, DecidableEq

/-- `import_book` (backend/main.py, lines 193-214 and surroundings).
`parse` stands for the external `reader3_module.process_epub`; it is only
invoked on the non-duplicate path.  The returned state reflects the books
directory after the request (a duplicate or invalid request leaves it
untouched; a successful import adds one folder holding the parsed book and
the stored fingerprint). -/
def import_book (st : BackendState) (parse : Upload → Book) (up : Upload) :
    BackendState × ImportResult :=
  if up.filename = "" then (st, .badRequest "Missing EPUB filename")
  else if ¬ (strEndsWith (strToLower up.filename) ".epub") then
    (st, .badRequest "Only .epub files are supported")
  else
    match find_duplicate_by_hash st.books up.hash with
    | some dupId =>
      let existingTitle := match load_book_cached st dupId with
        | some b => b.metadata.title
        | none => dupId
      (st, .conflict ("Book already imported: " ++ existingTitle))
    | none =>
      let folderName := resolve_unique_folder st (sanitize_book_name up.filename)
      let bookObj := parse up
      ({ books := st.books ++ [(folderName,
          { sourceHash := some up.hash, book := some bookObj })] },
       .imported folderName bookObj.metadata.title)

/- ### Specification-side and proof-support definitions -/

/-- Decimal digit list of a natural number (reference form of `Nat.repr`,
proved equal to it below). -/
def decDigits (n : Nat) : List Char :=
  if n < 10 then [Nat.digitChar n]
  else decDigits (n / 10) ++ [Nat.digitChar (n % 10)]
decreasing_by exact Nat.div_lt_self (by omega) (by omega)

/-- Numeric value of a digit string (inverse of the decimal rendering). -/
def decVal (l : List Char) : Nat :=
  l.foldl (fun a c => a * 10 + (c.toNat - 48)) 0

/-- The string `s` contains the given needles, in order and without
overlap: each needle occurs in the remainder after the previous one. -/
def ContainsInOrder (s : String) : List String → Prop
  | [] => True
  | n :: rest => ∃ x y, s = x ++ n ++ y ∧ ContainsInOrder y rest

/-- The chapter filenames `export_chapters` generates for a spine suffix
whose first chapter has spine index `i`. -/
def chapterNamesFrom (i : Nat) : List ChapterContent → List String
  | [] => []
  | ch :: rest => chapterFileName i ch :: chapterNamesFrom (i + 1) rest

/-- The chapter headings `export_single_file` emits for a spine suffix whose
first chapter has spine index `i`. -/
def chapterHeadingsFrom (i : Nat) : List ChapterContent → List String
  | [] => []
  | _ :: rest => ("## Chapter " ++ Nat.repr (i + 1)) :: chapterHeadingsFrom (i + 1) rest

/-- Position of an entry in a TOC forest: a non-empty list of sibling
indices, one per level. -/
def tocLookup : List TOCEntry → List Nat → Option TOCEntry
  | _, [] => none
  | toc, j :: rest =>
    match toc.get? j with
    | none => none
    | some e => match rest with
      | [] => some e
      | _ => tocLookup e.children rest

/-- Consistency of an `ImageProcessor` cache with the image directory: every
memoized filename was successfully read, hence exists.  A fresh processor
(empty cache) is trivially consistent, and every cache reachable during one
export run stays consistent. -/
def CacheConsistent (ctx : ExportCtx) (bookId : String) (cache : ImageCache) : Prop :=
  ∀ p ∈ cache, ctx.imageFs bookId p.1 ≠ none

/- ### Concrete sample data used by witnesses and counterexamples -/

/-- Concrete instantiation of the external collaborators, used to evaluate
the embedding on closed inputs. -/
def ctx0 : ExportCtx where
  conv := fun s => s
  yamlDump := fun _ => "title: t\n"
  parseHtml := fun _ => []
  serializeHtml := fun _ => ""
  b64 := fun s => s
  guessMime := fun _ => none
  renderPdf := fun s => s
  imageFs := fun _ _ => none

def meta0 : BookMetadata where
  title := "T"
  authors := ["a"]
  language := "en"
  publisher := none
  date := none
  description := none

/-- A one-chapter book. -/
def book1 : Book where
  metadata := meta0
  spine := [{ title := "One", href := "c1.xhtml", content := "<p>x</p>" }]
  toc := [.mk "One" []]
  images := []

/-- A three-chapter book titled `"My Book: A Story"`. -/
def book3 : Book where
  metadata := { meta0 with title := "My Book: A Story" }
  spine := [{ title := "c1", href := "1", content := "a" },
            { title := "c2", href := "2", content := "b" },
            { title := "c3", href := "3", content := "c" }]
  toc := []
  images := []

/-- A two-chapter book whose TOC forest (one root with one child) is not
isomorphic to its spine and uses different titles. -/
def book5 : Book where
  metadata := meta0
  spine := [{ title := "X", href := "1", content := "a" },
            { title := "Y", href := "2", content := "b" }]
  toc := [.mk "A" [.mk "B" []]]
  images := []

/-- The TOC forest of the C4 counterexample: pre-order traversal visits
`A` (index 0), `B` (index 1), `C` (index 2). -/
def toc4 : List TOCEntry :=
  [.mk "A" [.mk "B" []], .mk "C" []]

/-- Storage holding exactly `book1` under the identifier `"b"`. -/
def storage1 : Storage :=
  fun bookId => if bookId = "b" then .ok book1 else .missing

/-- Storage holding exactly `book3` under the identifier `"b3"`. -/
def storage3 : Storage :=
  fun bookId => if bookId = "b3" then .ok book3 else .missing

/-- Backend state with one imported book folder whose fingerprint is `"h1"`. -/
def state9 : BackendState where
  books := [("first_data", { sourceHash := some "h1", book := some book1 })]

def upload9 : Upload where
  filename := "Second.epub"
  hash := "h1"

/- ### String infrastructure lemmas -/

theorem string_eq_of_data (s t : String) (h : s.data = t.data) : s = t := by
  cases s; cases t; simp_all

theorem join_cons (x : String) (xs : List String) :
    String.join (x :: xs) = x ++ String.join xs := by
  have aux : ∀ (l : List String) (a : String), l.foldl (· ++ ·) a = a ++ String.join l := by
    intro l
    induction l with
    | nil =>
      intro a
      apply string_eq_of_data
      simp [String.join, String.data_append]
    | cons y ys ih =>
      intro a
      have h1 : (y :: ys).foldl (· ++ ·) a = ys.foldl (· ++ ·) (a ++ y) := rfl
      have h2 : String.join (y :: ys) = ys.foldl (· ++ ·) ("" ++ y) := rfl
      rw [h1, ih, h2, ih]
      apply string_eq_of_data
      simp [String.data_append]
  exact aux xs x

theorem join_append (xs ys : List String) :
    String.join (xs ++ ys) = String.join xs ++ String.join ys := by
  induction xs with
  | nil =>
    apply string_eq_of_data
    simp [String.join, String.data_append]
  | cons x rest ih =>
    rw [List.cons_append, join_cons, join_cons, ih]
    apply string_eq_of_data
    simp [String.data_append]

/- ### Decimal representation lemmas -/

theorem toDigitsCore_eq_decDigits :
    ∀ (fuel n : Nat) (ds : List Char), n < fuel →
      Nat.toDigitsCore 10 fuel n ds = decDigits n ++ ds := by
  intro fuel
  induction fuel with
  | zero => intro n ds h; omega
  | succ f ih =>
    intro n ds h
    show (if n / 10 = 0 then Nat.digitChar (n % 10) :: ds
          else Nat.toDigitsCore 10 f (n / 10) (Nat.digitChar (n % 10) :: ds)) = _
    by_cases h10 : n / 10 = 0
    · have hn : n < 10 := by omega
      rw [if_pos h10, decDigits, if_pos hn, Nat.mod_eq_of_lt hn]
      simp
    · have hge : 10 ≤ n := by
        by_contra hc
        exact h10 (Nat.div_eq_of_lt (by omega))
      have hdiv : n / 10 < n := Nat.div_lt_self (by omega) (by omega)
      have hrec : decDigits n = decDigits (n / 10) ++ [Nat.digitChar (n % 10)] := by
        conv_lhs => rw [decDigits]
        rw [if_neg (by omega)]
      rw [if_neg h10, ih (n / 10) _ (by omega), hrec]
      simp

theorem repr_data (n : Nat) : (Nat.repr n).data = decDigits n := by
  show (List.asString (Nat.toDigitsCore 10 (n + 1) n [])).data = decDigits n
  rw [toDigitsCore_eq_decDigits (n + 1) n [] (Nat.lt_succ_self n)]
  simp [List.asString]

theorem decVal_append_digit (l : List Char) (c : Char) :
    decVal (l ++ [c]) = decVal l * 10 + (c.toNat - 48) := by
  simp [decVal, List.foldl_append]

theorem digitChar_val (m : Nat) (h : m < 10) : (Nat.digitChar m).toNat - 48 = m := by
  interval_cases m <;> decide

theorem digitChar_isDigit (m : Nat) (h : m < 10) : (Nat.digitChar m).isDigit = true := by
  interval_cases m <;> decide

theorem decVal_decDigits : ∀ n : Nat, decVal (decDigits n) = n := by
  intro n
  induction n using Nat.strong_induction_on with
  | _ n ih =>
    rw [decDigits]
    by_cases h : n < 10
    · rw [if_pos h]
      show decVal ([] ++ [Nat.digitChar n]) = n
      rw [decVal_append_digit]
      simp [decVal, digitChar_val n h]
    · rw [if_neg h, decVal_append_digit,
          ih (n / 10) (Nat.div_lt_self (by omega) (by omega)),
          digitChar_val (n % 10) (Nat.mod_lt n (by omega))]
      omega

theorem decDigits_all_digit : ∀ n : Nat, ∀ c ∈ decDigits n, c.isDigit = true := by
  intro n
  induction n using Nat.strong_induction_on with
  | _ n ih =>
    rw [decDigits]
    by_cases h : n < 10
    · rw [if_pos h]
      intro c hc
      simp at hc
      subst hc
      exact digitChar_isDigit n h
    · rw [if_neg h]
      intro c hc
      rcases List.mem_append.mp hc with h1 | h2
      · exact ih (n / 10) (Nat.div_lt_self (by omega) (by omega)) c h1
      · simp at h2
        subst h2
        exact digitChar_isDigit (n % 10) (Nat.mod_lt n (by omega))

theorem decDigits_ne_nil (n : Nat) : decDigits n ≠ [] := by
  rw [decDigits]
  by_cases h : n < 10
  · rw [if_pos h]; simp
  · rw [if_neg h]; simp

/- ### Facts about `pad2` -/

theorem pad2_all_digit (n : Nat) : ∀ c ∈ (pad2 n).data, c.isDigit = true := by
  unfold pad2
  by_cases h : n < 10
  · rw [if_pos h]
    intro c hc
    rw [String.data_append, repr_data] at hc
    rcases List.mem_append.mp hc with h1 | h2
    · simp at h1
      subst h1
      decide
    · exact decDigits_all_digit n c h2
  · rw [if_neg h]
    intro c hc
    rw [repr_data] at hc
    exact decDigits_all_digit n c hc

theorem decVal_cons_zero (l : List Char) : decVal ('0' :: l) = decVal l := rfl

theorem decVal_pad2 (n : Nat) : decVal (pad2 n).data = n := by
  unfold pad2
  by_cases h : n < 10
  · rw [if_pos h, String.data_append, repr_data]
    show decVal ('0' :: decDigits n) = n
    rw [decVal_cons_zero, decVal_decDigits]
  · rw [if_neg h, repr_data, decVal_decDigits]

theorem pad2_data_inj (m n : Nat) (h : (pad2 m).data = (pad2 n).data) : m = n := by
  have := congrArg decVal h
  rwa [decVal_pad2, decVal_pad2] at this

theorem pad2_head_digit (n : Nat) :
    ∃ c t, (pad2 n).data = c :: t ∧ c.isDigit = true := by
  have hne : (pad2 n).data ≠ [] := by
    unfold pad2
    by_cases h : n < 10
    · rw [if_pos h, String.data_append]
      simp
    · rw [if_neg h, repr_data]
      exact decDigits_ne_nil n
  cases hd : (pad2 n).data with
  | nil => exact absurd hd hne
  | cons c t =>
    refine ⟨c, t, rfl, ?_⟩
    exact pad2_all_digit n c (by rw [hd]; simp)

/- ### Leading digit run determines the index prefix -/

theorem takeWhile_digit_run :
    ∀ (A r : List Char), (∀ c ∈ A, c.isDigit = true) →
      (A ++ '_' :: r).takeWhile Char.isDigit = A := by
  intro A
  induction A with
  | nil =>
    intro r _
    show List.takeWhile Char.isDigit ('_' :: r) = []
    simp [List.takeWhile]
  | cons c t ih =>
    intro r hall
    have hc : c.isDigit = true := hall c (by simp)
    show List.takeWhile Char.isDigit (c :: (t ++ '_' :: r)) = c :: t
    rw [List.takeWhile_cons_of_pos (by simp [hc])]
    rw [ih r (fun x hx => hall x (by simp [hx]))]

theorem pad2_prefix_inj (i j : Nat) (a b : List Char)
    (h : (pad2 i).data ++ '_' :: a = (pad2 j).data ++ '_' :: b) : i = j := by
  have hi := takeWhile_digit_run (pad2 i).data a (pad2_all_digit i)
  have hj := takeWhile_digit_run (pad2 j).data b (pad2_all_digit j)
  apply pad2_data_inj
  rw [← hi, ← hj, h]

/- ### Chapter filenames are pairwise distinct and distinct from README.md -/

theorem chapterFileName_data (i : Nat) (ch : ChapterContent) :
    (chapterFileName i ch).data =
      (pad2 i).data ++ '_' ::
        ((sanitize_filename (effectiveChapterTitle i ch) 200).data ++ ['.', 'm', 'd']) := by
  simp [chapterFileName, String.data_append]

theorem chapterFileName_index_inj (i j : Nat) (ch ch2 : ChapterContent)
    (h : chapterFileName i ch = chapterFileName j ch2) : i = j := by
  have hd := congrArg String.data h
  rw [chapterFileName_data, chapterFileName_data] at hd
  exact pad2_prefix_inj i j _ _ hd

theorem chapterFileName_ne_of_index_ne (i j : Nat) (ch ch2 : ChapterContent)
    (h : i ≠ j) : chapterFileName i ch ≠ chapterFileName j ch2 := by
  intro he
  exact h (chapterFileName_index_inj i j ch ch2 he)

theorem chapterFileName_ne_readme (i : Nat) (ch : ChapterContent) :
    chapterFileName i ch ≠ "README.md" := by
  intro h
  have hd := congrArg String.data h
  rw [chapterFileName_data] at hd
  obtain ⟨c, t, hp, hdig⟩ := pad2_head_digit i
  rw [hp] at hd
  have hc : c = 'R' := by
    have := congrArg List.head? hd
    simpa using this
  rw [hc] at hdig
  exact absurd hdig (by decide)

/- ### Keys of the assembled temporary directory -/

theorem upsert_keys_of_notmem {α : Type} (l : List (String × α)) (k : String) (v : α)
    (h : k ∉ l.map Prod.fst) : (upsert l k v).map Prod.fst = l.map Prod.fst ++ [k] := by
  induction l with
  | nil => rfl
  | cons p rest ih =>
    have hne : p.1 ≠ k := by
      intro he
      exact h (by simp [he])
    obtain ⟨k0, v0⟩ := p
    show (upsert ((k0, v0) :: rest) k v).map Prod.fst = _
    rw [upsert, if_neg hne]
    simp only [List.map_cons]
    rw [ih (fun hm => h (by simp [hm]))]
    simp

theorem chapterNamesFrom_length : ∀ (l : List ChapterContent) (i : Nat),
    (chapterNamesFrom i l).length = l.length := by
  intro l
  induction l with
  | nil => intro i; rfl
  | cons ch rest ih =>
    intro i
    show (chapterFileName i ch :: chapterNamesFrom (i + 1) rest).length = rest.length + 1
    simp [ih]

theorem mem_chapterNamesFrom : ∀ (l : List ChapterContent) (i : Nat) (k : String),
    k ∈ chapterNamesFrom i l ↔ ∃ j ch, l.get? j = some ch ∧ k = chapterFileName (i + j) ch := by
  intro l
  induction l with
  | nil =>
    intro i k
    constructor
    · intro h; exact absurd h (by simp [chapterNamesFrom])
    · rintro ⟨j, ch, hj, _⟩
      simp at hj
  | cons c rest ih =>
    intro i k
    constructor
    · intro h
      rcases List.mem_cons.mp h with h1 | h2
      · exact ⟨0, c, rfl, by simpa using h1⟩
      · obtain ⟨j, ch, hj, hk⟩ := (ih (i + 1) k).mp h2
        exact ⟨j + 1, ch, by simpa using hj, by rw [hk]; ring_nf⟩
    · rintro ⟨j, ch, hj, hk⟩
      cases j with
      | zero =>
        simp at hj
        subst hj
        simp [chapterNamesFrom, hk]
      | succ j0 =>
        rw [List.get?_cons_succ] at hj
        refine List.mem_cons.mpr (Or.inr ?_)
        refine (ih (i + 1) k).mpr ⟨j0, ch, hj, ?_⟩
        rw [hk]
        ring_nf

theorem chapterNamesFrom_nodup : ∀ (l : List ChapterContent) (i : Nat),
    (chapterNamesFrom i l).Nodup := by
  intro l
  induction l with
  | nil => intro i; simp [chapterNamesFrom]
  | cons c rest ih =>
    intro i
    show (chapterFileName i c :: chapterNamesFrom (i + 1) rest).Nodup
    refine List.nodup_cons.mpr ⟨?_, ih (i + 1)⟩
    intro hmem
    obtain ⟨j, ch, _, hk⟩ := (mem_chapterNamesFrom rest (i + 1) _).mp hmem
    exact chapterFileName_ne_of_index_ne i (i + 1 + j) c ch (by omega) hk

theorem chapterFilesLoop_keys (ctx : ExportCtx) (bookId : String) :
    ∀ (chapters : List ChapterContent) (i : Nat) (dir : TempDir) (cache : ImageCache),
      (∀ k ∈ dir.map Prod.fst, k = "README.md" ∨ ∃ j ch0, j < i ∧ k = chapterFileName j ch0) →
      ((chapterFilesLoop ctx bookId chapters i dir cache).1).map Prod.fst =
        dir.map Prod.fst ++ chapterNamesFrom i chapters := by
  intro chapters
  induction chapters with
  | nil =>
    intro i dir cache _
    simp [chapterFilesLoop, chapterNamesFrom]
  | cons ch rest ih =>
    intro i dir cache hinv
    have hfresh : chapterFileName i ch ∉ dir.map Prod.fst := by
      intro hmem
      rcases hinv _ hmem with h1 | ⟨j, ch0, hj, hk⟩
      · exact chapterFileName_ne_readme i ch h1
      · exact chapterFileName_ne_of_index_ne i j ch ch0 (by omega) hk
    have hstep :
        (chapterFilesLoop ctx bookId (ch :: rest) i dir cache).1 =
          (chapterFilesLoop ctx bookId rest (i + 1)
            (upsert dir (chapterFileName i ch)
              ("# " ++ effectiveChapterTitle i ch ++ "\n\n" ++
                (html_to_markdown ctx bookId ch.content cache).1))
            (html_to_markdown ctx bookId ch.content cache).2).1 := by
      simp [chapterFilesLoop]
    rw [hstep, ih (i + 1) _ _ ?_, upsert_keys_of_notmem dir _ _ hfresh]
    · show _ = dir.map Prod.fst ++ (chapterFileName i ch :: chapterNamesFrom (i + 1) rest)
      simp
    · intro k hk
      rw [upsert_keys_of_notmem dir _ _ hfresh] at hk
      rcases List.mem_append.mp hk with h1 | h2
      · rcases hinv k h1 with h3 | ⟨j, ch0, hj, hkj⟩
        · exact Or.inl h3
        · exact Or.inr ⟨j, ch0, by omega, hkj⟩
      · simp at h2
        exact Or.inr ⟨i, ch, by omega, h2⟩

theorem zipEntryNames_eq (ctx : ExportCtx) (book : Book) (bookId : String) :
    zipEntryNames ctx book bookId = "README.md" :: chapterNamesFrom 0 book.spine := by
  show ((chapterFilesLoop ctx bookId book.spine 0
      (upsert ([] : TempDir) "README.md" (readmeContent ctx book)) []).1).map Prod.fst = _
  rw [chapterFilesLoop_keys ctx bookId book.spine 0 _ []]
  · rfl
  · intro k hk
    simp [upsert] at hk
    exact Or.inl hk

/-- C2.  For every book, the chapter-split archive contains exactly
`len(spine) + 1` member names — `README.md` plus one file per spine
chapter, no extras; every non-README member is the filename
`f"{i:02d}_{sanitize_filename(title)}.md"` of its chapter; every chapter
contributes its file; filenames with distinct indices never collide (the
zero-padded index prefix guarantees uniqueness even for equal sanitized
titles); and the member names are pairwise distinct. -/
theorem export_chapters_archive_entries (ctx : ExportCtx) (book : Book) (bookId : String) :
    (zipEntryNames ctx book bookId).length = book.spine.length + 1 ∧
    (∀ k ∈ zipEntryNames ctx book bookId,
      k = "README.md" ∨ ∃ j ch, book.spine.get? j = some ch ∧ k = chapterFileName j ch) ∧
    (∀ j ch, book.spine.get? j = some ch →
      chapterFileName j ch ∈ zipEntryNames ctx book bookId) ∧
    (∀ i j ch ch2, i ≠ j → chapterFileName i ch ≠ chapterFileName j ch2) ∧
    (zipEntryNames ctx book bookId).Nodup := by
  rw [zipEntryNames_eq]
  refine ⟨by simp [chapterNamesFrom_length], ?_, ?_, ?_, ?_⟩
  · intro k hk
    rcases List.mem_cons.mp hk with h1 | h2
    · exact Or.inl h1
    · obtain ⟨j, ch, hj, hkj⟩ := (mem_chapterNamesFrom book.spine 0 k).mp h2
      exact Or.inr ⟨j, ch, hj, by simpa using hkj⟩
  · intro j ch hj
    refine List.mem_cons.mpr (Or.inr ?_)
    exact (mem_chapterNamesFrom book.spine 0 _).mpr ⟨j, ch, hj, by simp⟩
  · exact fun i j ch ch2 h => chapterFileName_ne_of_index_ne i j ch ch2 h
  · refine List.nodup_cons.mpr ⟨?_, chapterNamesFrom_nodup book.spine 0⟩
    intro hmem
    obtain ⟨j, ch, _, hk⟩ := (mem_chapterNamesFrom book.spine 0 _).mp hmem
    exact chapterFileName_ne_readme (0 + j) ch hk.symm

/- ### Separator count of the single-file export -/

theorem singleChapterLoop_sep_count (ctx : ExportCtx) (bookId : String) :
    ∀ (chapters : List ChapterContent) (i total : Nat) (cache : ImageCache),
      total = i + chapters.length →
      ((singleChapterLoop ctx bookId chapters i total cache).1).count Seg.sep =
        chapters.length - 1 := by
  intro chapters
  induction chapters with
  | nil =>
    intro i total cache _
    simp [singleChapterLoop]
  | cons ch rest ih =>
    intro i total cache htot
    have hstep :
        (singleChapterLoop ctx bookId (ch :: rest) i total cache).1 =
          ([Seg.text ("<a id=\"chapter-" ++ Nat.repr i ++ "\"></a>\n\n"),
            Seg.text ("## Chapter " ++ Nat.repr (i + 1) ++ "\n\n"),
            Seg.text (html_to_markdown ctx bookId ch.content cache).1] ++
           (if i < total - 1 then [Seg.sep] else [])) ++
          (singleChapterLoop ctx bookId rest (i + 1) total
            (html_to_markdown ctx bookId ch.content cache).2).1 := by
      simp [singleChapterLoop]
    rw [hstep]
    cases rest with
    | nil =>
      have hcond : ¬ (i < total - 1) := by
        simp at htot
        omega
      rw [if_neg hcond]
      simp [singleChapterLoop, List.count_append, List.count_cons]
    | cons r rs =>
      have hcond : i < total - 1 := by
        simp at htot
        omega
      rw [if_pos hcond, List.count_append, List.count_append,
          ih (i + 1) total _ (by simp at htot ⊢; omega)]
      simp [List.count_cons]
      omega

/-- C1.  For every book with at least one spine chapter, the single-file
Markdown export content is non-empty, begins with the YAML frontmatter block
`---\n …yaml… ---\n\n`, and the chapter loop emits exactly
`len(spine) - 1` separator fragments between consecutive chapters (one
fewer divider than chapters; `Seg.sep` marks exactly those fragments). -/
theorem export_single_file_shape (ctx : ExportCtx) (book : Book) (bookId : String)
    (h : book.spine ≠ []) :
    exportSingleFileContent ctx book bookId ≠ "" ∧
    (∃ y rest, exportSingleFileContent ctx book bookId =
      "---\n" ++ y ++ "---\n\n" ++ rest) ∧
    ((exportSingleFileSegs ctx book bookId).count Seg.sep) = book.spine.length - 1 := by
  have hdecomp : ∃ y rest, exportSingleFileContent ctx book bookId =
      "---\n" ++ y ++ "---\n\n" ++ rest := by
    refine ⟨ctx.yamlDump (frontmatterFields book.metadata),
      "# " ++ book.metadata.title ++ "\n\n" ++
        ("## Table of Contents\n\n" ++
          (generate_toc_markdown book.toc "single" 0 ++
            ("\n---\n\n" ++
              String.join ((singleChapterLoop ctx bookId book.spine 0
                book.spine.length []).1.map Seg.render)))), ?_⟩
    show String.join ((exportSingleFileSegs ctx book bookId).map Seg.render) = _
    rw [exportSingleFileSegs]
    rw [List.map_append, join_append]
    simp only [List.map_cons, List.map_nil]
    rw [join_cons, join_cons, join_cons, join_cons, join_cons]
    apply string_eq_of_data
    simp [Seg.render, generate_frontmatter, String.data_append, String.join]
  refine ⟨?_, hdecomp, ?_⟩
  · obtain ⟨y, rest, he⟩ := hdecomp
    intro hemp
    rw [hemp] at he
    have := congrArg String.data he
    simp [String.data_append] at this
  · rw [exportSingleFileSegs]
    rw [List.count_append]
    have h0 : ([Seg.text (generate_frontmatter ctx book.metadata),
      Seg.text ("# " ++ book.metadata.title ++ "\n\n"),
      Seg.text "## Table of Contents\n\n",
      Seg.text (generate_toc_markdown book.toc "single" 0),
      Seg.text "\n---\n\n"]).count Seg.sep = 0 := by
      simp [List.count_cons]
    rw [h0, singleChapterLoop_sep_count ctx bookId book.spine 0 book.spine.length []
      (by omega)]
    omega

/-- Witness for C1 at a concrete one-chapter book. -/
theorem export_single_file_shape_witness :
    book1.spine ≠ [] ∧
    (exportSingleFileContent ctx0 book1 "b" ≠ "" ∧
      (∃ y rest, exportSingleFileContent ctx0 book1 "b" =
        "---\n" ++ y ++ "---\n\n" ++ rest) ∧
      ((exportSingleFileSegs ctx0 book1 "b").count Seg.sep) = book1.spine.length - 1) :=
  ⟨by decide, export_single_file_shape ctx0 book1 "b" (by decide)⟩

/- ### Ordered occurrence of the chapter headings -/

theorem containsInOrder_prepend (x s : String) (l : List String)
    (h : ContainsInOrder s l) : ContainsInOrder (x ++ s) l := by
  cases l with
  | nil => trivial
  | cons n rest =>
    obtain ⟨a, y, he, hr⟩ := h
    refine ⟨x ++ a, y, ?_, hr⟩
    rw [he]
    apply string_eq_of_data
    simp [String.data_append]

theorem singleChapterLoop_headings (ctx : ExportCtx) (bookId : String) :
    ∀ (chapters : List ChapterContent) (i total : Nat) (cache : ImageCache),
      ContainsInOrder
        (String.join ((singleChapterLoop ctx bookId chapters i total cache).1.map Seg.render))
        (chapterHeadingsFrom i chapters) := by
  intro chapters
  induction chapters with
  | nil =>
    intro i total cache
    trivial
  | cons ch rest ih =>
    intro i total cache
    have hstep :
        (singleChapterLoop ctx bookId (ch :: rest) i total cache).1 =
          ([Seg.text ("<a id=\"chapter-" ++ Nat.repr i ++ "\"></a>\n\n"),
            Seg.text ("## Chapter " ++ Nat.repr (i + 1) ++ "\n\n"),
            Seg.text (html_to_markdown ctx bookId ch.content cache).1] ++
           (if i < total - 1 then [Seg.sep] else [])) ++
          (singleChapterLoop ctx bookId rest (i + 1) total
            (html_to_markdown ctx bookId ch.content cache).2).1 := by
      simp [singleChapterLoop]
    rw [hstep]
    show ContainsInOrder _
      (("## Chapter " ++ Nat.repr (i + 1)) :: chapterHeadingsFrom (i + 1) rest)
    refine ⟨"<a id=\"chapter-" ++ Nat.repr i ++ "\"></a>\n\n",
      "\n\n" ++ ((html_to_markdown ctx bookId ch.content cache).1 ++
        (String.join ((if i < total - 1 then [Seg.sep] else ([] : List Seg)).map Seg.render) ++
          String.join ((singleChapterLoop ctx bookId rest (i + 1) total
            (html_to_markdown ctx bookId ch.content cache).2).1.map Seg.render))), ?_, ?_⟩
    · rw [List.map_append, join_append, List.map_append, join_append]
      simp only [List.map_cons, List.map_nil]
      rw [join_cons, join_cons, join_cons]
      apply string_eq_of_data
      simp [Seg.render, String.data_append, String.join]
    · apply containsInOrder_prepend
      apply containsInOrder_prepend
      apply containsInOrder_prepend
      exact ih (i + 1) total _

theorem exportSingleFileContent_headings (ctx : ExportCtx) (book : Book) (bookId : String) :
    ContainsInOrder (exportSingleFileContent ctx book bookId)
      (chapterHeadingsFrom 0 book.spine) := by
  have hdec : exportSingleFileContent ctx book bookId =
      String.join (([Seg.text (generate_frontmatter ctx book.metadata),
        Seg.text ("# " ++ book.metadata.title ++ "\n\n"),
        Seg.text "## Table of Contents\n\n",
        Seg.text (generate_toc_markdown book.toc "single" 0),
        Seg.text "\n---\n\n"]).map Seg.render) ++
      String.join ((singleChapterLoop ctx bookId book.spine 0 book.spine.length
        []).1.map Seg.render) := by
    show String.join ((exportSingleFileSegs ctx book bookId).map Seg.render) = _
    rw [exportSingleFileSegs, List.map_append, join_append]
  rw [hdec]
  exact containsInOrder_prepend _ _ _
    (singleChapterLoop_headings ctx bookId book.spine 0 book.spine.length [])

/-- C3.  For a book titled `"My Book: A Story"` with three spine chapters,
the single-mode markdown export of `export_book` produces the suggested
filename `My_Book_A_Story_single.md` with MIME type `text/markdown`, and the
generated single-file content contains the headings `## Chapter 1`,
`## Chapter 2`, `## Chapter 3` in that order. -/
theorem export_book_example_my_book (ctx : ExportCtx) (storage : Storage) (fs : FS)
    (bookId : String) (book : Book)
    (h1 : storage bookId = .ok book)
    (h2 : book.metadata.title = "My Book: A Story")
    (h3 : book.spine.length = 3) :
    (∃ r, (export_book ctx storage fs bookId "markdown" none).2 = .ok r ∧
      r.filename = "My_Book_A_Story_single.md" ∧ r.mime_type = "text/markdown") ∧
    ContainsInOrder (exportSingleFileContent ctx book bookId)
      ["## Chapter 1", "## Chapter 2", "## Chapter 3"] := by
  constructor
  · refine ⟨ExportResult.mk (export_single_file ctx fs book bookId).2
      (sanitize_filename book.metadata.title 200 ++ "_single.md") "text/markdown" true,
      ?_, ?_, rfl⟩
    · simp [export_book, load_book, h1, export_single_file]
    · show sanitize_filename book.metadata.title 200 ++ "_single.md" = _
      rw [h2]
      decide
  · have hsp : ∃ a b c, book.spine = [a, b, c] := by
      cases hq : book.spine with
      | nil => rw [hq] at h3; simp at h3
      | cons a t1 =>
        cases t1 with
        | nil => rw [hq] at h3; simp at h3
        | cons b t2 =>
          cases t2 with
          | nil => rw [hq] at h3; simp at h3
          | cons c t3 =>
            cases t3 with
            | nil => exact ⟨a, b, c, rfl⟩
            | cons d t4 => rw [hq] at h3; simp at h3
    obtain ⟨a, b, c, hq⟩ := hsp
    have hh : chapterHeadingsFrom 0 book.spine =
        ["## Chapter 1", "## Chapter 2", "## Chapter 3"] := by
      rw [hq]
      show ("## Chapter " ++ Nat.repr 1) ::
        ("## Chapter " ++ Nat.repr 2) :: ("## Chapter " ++ Nat.repr 3) :: [] = _
      decide
    rw [← hh]
    exact exportSingleFileContent_headings ctx book bookId

/-- Witness for C3 at the concrete three-chapter book `book3`. -/
theorem export_book_example_my_book_witness :
    storage3 "b3" = .ok book3 ∧
    book3.metadata.title = "My Book: A Story" ∧
    book3.spine.length = 3 ∧
    ((∃ r, (export_book ctx0 storage3 ([] : FS) "b3" "markdown" none).2 = .ok r ∧
      r.filename = "My_Book_A_Story_single.md" ∧ r.mime_type = "text/markdown") ∧
    ContainsInOrder (exportSingleFileContent ctx0 book3 "b3")
      ["## Chapter 1", "## Chapter 2", "## Chapter 3"]) :=
  ⟨rfl, rfl, rfl,
    export_book_example_my_book ctx0 storage3 ([] : FS) "b3" book3 rfl rfl rfl⟩

/- ### Occurrence of links in the rendered TOC -/

theorem genTocList_cons_eq (e : TOCEntry) (rest : List TOCEntry) (mode : String)
    (level i : Nat) :
    genTocList (e :: rest) mode level i =
      genTocEntry e mode level i ++ genTocList rest mode level (i + 1) := rfl

theorem genTocEntry_eq (t : String) (cs : List TOCEntry) (mode : String) (level i : Nat) :
    genTocEntry (.mk t cs) mode level i =
      indentOf level ++ "- " ++ tocLink mode i t ++ "\n" ++
        (if cs.isEmpty then "" else genTocList cs mode (level + 1) 0) := rfl

theorem tocLink_in_genTocList :
    ∀ (toc : List TOCEntry) (mode : String) (level i j : Nat) (e : TOCEntry),
      toc.get? j = some e →
      (tocLink mode (i + j) e.title).data <:+: (genTocList toc mode level i).data := by
  intro toc
  induction toc with
  | nil =>
    intro mode level i j e hj
    simp at hj
  | cons e0 rest ih =>
    intro mode level i j e hj
    cases j with
    | zero =>
      simp at hj
      rw [← hj]
      obtain ⟨t, cs⟩ := e0
      rw [Nat.add_zero, genTocList_cons_eq, genTocEntry_eq]
      refine ⟨(indentOf level).data ++ "- ".data,
        "\n".data ++
          (if cs.isEmpty then "" else genTocList cs mode (level + 1) 0).data ++
          (genTocList rest mode level (i + 1)).data, ?_⟩
      show _ = _
      simp [String.data_append, TOCEntry.title]
    | succ j0 =>
      rw [List.get?_cons_succ] at hj
      have h1 := ih mode level (i + 1) j0 e hj
      have h2 : i + (j0 + 1) = i + 1 + j0 := by omega
      rw [genTocList_cons_eq, h2]
      have hsuf : (genTocList rest mode level (i + 1)).data <:+:
          (genTocEntry e0 mode level i ++ genTocList rest mode level (i + 1)).data := by
        rw [String.data_append]
        exact (List.suffix_append _ _).isInfix
      exact h1.trans hsuf

theorem genTocList_children_occurs :
    ∀ (toc : List TOCEntry) (mode : String) (level i j : Nat) (e : TOCEntry),
      toc.get? j = some e →
      (genTocList e.children mode (level + 1) 0).data <:+:
        (genTocList toc mode level i).data := by
  intro toc
  induction toc with
  | nil =>
    intro mode level i j e hj
    simp at hj
  | cons e0 rest ih =>
    intro mode level i j e hj
    cases j with
    | zero =>
      simp at hj
      rw [← hj]
      obtain ⟨t, cs⟩ := e0
      rw [genTocList_cons_eq, genTocEntry_eq]
      by_cases hcs : cs.isEmpty
      · have : cs = [] := by
          cases cs
          · rfl
          · simp at hcs
        subst this
        show (genTocList [] mode (level + 1) 0).data <:+: _
        exact List.nil_infix
      · rw [if_neg hcs]
        show (genTocList cs mode (level + 1) 0).data <:+: _
        refine ⟨(indentOf level ++ "- " ++ tocLink mode i t ++ "\n").data,
          (genTocList rest mode level (i + 1)).data, ?_⟩
        simp [String.data_append]
    | succ j0 =>
      rw [List.get?_cons_succ] at hj
      have h1 := ih mode level (i + 1) j0 e hj
      rw [genTocList_cons_eq]
      have hsuf : (genTocList rest mode level (i + 1)).data <:+:
          (genTocEntry e0 mode level i ++ genTocList rest mode level (i + 1)).data := by
        rw [String.data_append]
        exact (List.suffix_append _ _).isInfix
      exact h1.trans hsuf

/-- C4 counterexample.  In the forest `toc4` the pre-order traversal visits
`A` at position 0, `B` at position 1, `C` at position 2, so the claim
prescribes the link `[B](#chapter-1)` for the nested entry `B`.  The
renderer instead numbers every entry by its `enumerate` index among its
siblings (restarting at 0 in each child list): `B` gets `#chapter-0`, and
`[B](#chapter-1)` occurs nowhere in the output. -/
theorem toc_single_anchor_counterexample :
    generate_toc_markdown toc4 "single" 0 =
      "- [A](#chapter-0)\n  - [B](#chapter-0)\n- [C](#chapter-1)\n" ∧
    tocLookup toc4 [0, 0] = some (.mk "B" []) ∧
    ¬ (("[B](#chapter-1)").data <:+: (generate_toc_markdown toc4 "single" 0).data) := by
  refine ⟨rfl, rfl, ?_⟩
  decide

/-- C4 amended.  In single-document mode every entry of the TOC forest is
assigned a link, and the link of the entry at position `path` (a non-empty
list of sibling indices) is the in-document anchor `#chapter-<n>` where `n`
is the entry's `enumerate` index among its own siblings — the last component
of `path` — not its global pre-order traversal index. -/
theorem toc_single_anchor_links :
    ∀ (path : List Nat) (toc : List TOCEntry) (level : Nat) (e : TOCEntry),
      tocLookup toc path = some e →
      ("[" ++ e.title ++ "](#chapter-" ++ Nat.repr (path.getLastD 0) ++ ")").data <:+:
        (generate_toc_markdown toc "single" level).data := by
  intro path
  induction path with
  | nil =>
    intro toc level e h
    simp [tocLookup] at h
  | cons j rest ih =>
    intro toc level e h
    have hlink : ∀ (n : Nat) (t : String),
        tocLink "single" n t = "[" ++ t ++ "](#chapter-" ++ Nat.repr n ++ ")" := by
      intro n t
      rfl
    cases hg : toc.get? j with
    | none =>
      rw [tocLookup, hg] at h
      exact absurd h (by simp)
    | some e0 =>
      cases rest with
      | nil =>
        rw [tocLookup, hg] at h
        simp at h
        rw [← h]
        have h2 := tocLink_in_genTocList toc "single" level 0 j e0 hg
        rw [hlink, Nat.zero_add] at h2
        show ("[" ++ e0.title ++ "](#chapter-" ++ Nat.repr (List.getLastD [j] 0) ++ ")").data
          <:+: (genTocList toc "single" level 0).data
        simpa using h2
      | cons r rs =>
        rw [tocLookup, hg] at h
        have hrec : tocLookup e0.children (r :: rs) = some e := h
        have h1 := ih e0.children (level + 1) e hrec
        have hlast : (j :: r :: rs).getLastD 0 = (r :: rs).getLastD 0 := by
          rw [List.getLastD_cons, List.getLastD_cons, List.getLastD_cons]
        rw [hlast]
        exact h1.trans (genTocList_children_occurs toc "single" level 0 j e0 hg)

/-- Witness for the amended C4 at the nested entry `B` of `toc4`. -/
theorem toc_single_anchor_links_witness :
    tocLookup toc4 [0, 0] = some (.mk "B" []) ∧
    ("[" ++ (TOCEntry.mk "B" []).title ++ "](#chapter-" ++
        Nat.repr (([0, 0] : List Nat).getLastD 0) ++ ")").data <:+:
      (generate_toc_markdown toc4 "single" 0).data :=
  ⟨rfl, toc_single_anchor_links [0, 0] toc4 0 (.mk "B" []) rfl⟩

/- ### Split-mode TOC links versus archive filenames -/

/-- C5 counterexample.  For `book5` the split-mode Structure Renderer links
are computed from TOC entry titles and sibling indices (`00_A.md`,
`00_B.md`), while the chapter-splitting encoder names its files from spine
positions and chapter titles (`00_X.md`, `01_Y.md`): the link `00_A.md` is
emitted in the rendered TOC but names no file in the archive, so the two
naming computations do not agree for every entry. -/
theorem toc_split_links_counterexample :
    generate_toc_markdown book5.toc "chapters" 0 =
      "- [A](00_A.md)\n  - [B](00_B.md)\n" ∧
    zipEntryNames ctx0 book5 "b5" = ["README.md", "00_X.md", "01_Y.md"] ∧
    ("(00_A.md)").data <:+: (generate_toc_markdown book5.toc "chapters" 0).data ∧
    "00_A.md" ∉ zipEntryNames ctx0 book5 "b5" := by
  refine ⟨rfl, rfl, by decide, by decide⟩

/-- C5 amended.  The split-mode link and the archive filename are built by
the same `f"{i:02d}_{sanitize_filename(title)}.md"` scheme, but from
different data (TOC sibling index and TOC title versus spine index and
chapter title), so they agree exactly for a top-level TOC entry whose index
also addresses a spine chapter with an equal sanitized (effective) title:
for such an entry the rendered link names precisely the file the encoder
writes into the archive. -/
theorem toc_split_link_matches_archive (ctx : ExportCtx) (book : Book) (bookId : String)
    (j : Nat) (e : TOCEntry) (ch : ChapterContent)
    (h1 : book.toc.get? j = some e)
    (h2 : book.spine.get? j = some ch)
    (h3 : sanitize_filename e.title 200 = sanitize_filename (effectiveChapterTitle j ch) 200) :
    tocLink "chapters" j e.title = "[" ++ e.title ++ "](" ++ chapterFileName j ch ++ ")" ∧
    (tocLink "chapters" j e.title).data <:+:
      (generate_toc_markdown book.toc "chapters" 0).data ∧
    chapterFileName j ch ∈ zipEntryNames ctx book bookId := by
  refine ⟨?_, ?_, ?_⟩
  · rw [tocLink, if_neg (by decide), h3, chapterFileName]
    apply string_eq_of_data
    simp [String.data_append]
  · have := tocLink_in_genTocList book.toc "chapters" 0 0 j e h1
    rw [Nat.zero_add] at this
    exact this
  · rw [zipEntryNames_eq]
    refine List.mem_cons.mpr (Or.inr ?_)
    exact (mem_chapterNamesFrom book.spine 0 _).mpr ⟨j, ch, h2, by simp⟩

/-- Witness for the amended C5 at `book1`, whose single TOC entry title
equals its single chapter title. -/
theorem toc_split_link_matches_archive_witness :
    book1.toc.get? 0 = some (.mk "One" []) ∧
    book1.spine.get? 0 = some (ChapterContent.mk "One" "c1.xhtml" "<p>x</p>") ∧
    (tocLink "chapters" 0 (TOCEntry.mk "One" []).title =
      "[" ++ (TOCEntry.mk "One" []).title ++ "](" ++
        chapterFileName 0 (ChapterContent.mk "One" "c1.xhtml" "<p>x</p>") ++ ")" ∧
    (tocLink "chapters" 0 (TOCEntry.mk "One" []).title).data <:+:
      (generate_toc_markdown book1.toc "chapters" 0).data ∧
    chapterFileName 0 (ChapterContent.mk "One" "c1.xhtml" "<p>x</p>") ∈
      zipEntryNames ctx0 book1 "b") :=
  ⟨rfl, rfl, toc_split_link_matches_archive ctx0 book1 "b" 0 (.mk "One" [])
    (ChapterContent.mk "One" "c1.xhtml" "<p>x</p>") rfl rfl rfl⟩

/- ### Load failures surface as the not-found condition -/

/-- C6.  For every identifier whose stored form is absent or whose
deserialization fails, `load_book` raises `BookNotFoundError` (never a raw
decode error — the embedding has no other error outcome for loading), and an
export request for such an identifier returns that not-found error with the
filesystem unchanged: no artifact is written. -/
theorem load_failure_not_found (ctx : ExportCtx) (storage : Storage) (fs : FS)
    (bookId format : String) (mode : Option String)
    (h : storage bookId = .missing ∨ storage bookId = .corrupt) :
    ∃ msg, load_book storage bookId = .error (.notFound msg) ∧
      export_book ctx storage fs bookId format mode = (fs, .error (.notFound msg)) := by
  rcases h with h | h
  · exact ⟨"Book not found: " ++ bookId,
      by simp [load_book, h], by simp [export_book, load_book, h]⟩
  · exact ⟨"Failed to load book " ++ bookId,
      by simp [load_book, h], by simp [export_book, load_book, h]⟩

/-- Witness for C6 at a corrupt stored book. -/
theorem load_failure_not_found_witness :
    ((fun (_ : String) => LoadOutcome.corrupt) "bad" = LoadOutcome.missing ∨
      (fun (_ : String) => LoadOutcome.corrupt) "bad" = LoadOutcome.corrupt) ∧
    (∃ msg, load_book (fun _ => LoadOutcome.corrupt) "bad" = .error (.notFound msg) ∧
      export_book ctx0 (fun _ => LoadOutcome.corrupt) ([] : FS) "bad" "pdf" none =
        (([] : FS), .error (.notFound msg))) :=
  ⟨Or.inr rfl,
    load_failure_not_found ctx0 (fun _ => LoadOutcome.corrupt) ([] : FS) "bad" "pdf" none
      (Or.inr rfl)⟩

/- ### Format routing of the orchestrator -/

/-- C7.  For a stored book, `export_book` raises the unsupported-format
error exactly when the format is outside `{markdown, pdf}`, and for
`markdown` every mode other than `'chapters'` — including an absent mode —
takes the single-file branch, returning the single-file artifact with the
`_single.md` filename and `text/markdown` MIME type. -/
theorem export_format_routing (ctx : ExportCtx) (storage : Storage) (fs : FS)
    (bookId format : String) (mode : Option String) (book : Book)
    (h : storage bookId = .ok book) :
    ((∃ m, (export_book ctx storage fs bookId format mode).2 =
        .error (.unsupportedFormat m)) ↔ (format ≠ "markdown" ∧ format ≠ "pdf")) ∧
    (format = "markdown" → mode ≠ some "chapters" →
      export_book ctx storage fs bookId format mode =
        ((export_single_file ctx fs book bookId).1,
         .ok (ExportResult.mk (export_single_file ctx fs book bookId).2
           (sanitize_filename book.metadata.title 200 ++ "_single.md")
           "text/markdown" true))) := by
  constructor
  · constructor
    · rintro ⟨m, hm⟩
      by_cases h1 : format = "markdown"
      · exfalso
        by_cases h2 : mode = some "chapters"
        · simp [export_book, load_book, h, h1, h2] at hm
        · simp [export_book, load_book, h, h1, h2] at hm
      · by_cases h2 : format = "pdf"
        · exfalso
          simp [export_book, load_book, h, h1, h2] at hm
        · exact ⟨h1, h2⟩
    · rintro ⟨h1, h2⟩
      exact ⟨"Unsupported format: " ++ format,
        by simp [export_book, load_book, h, h1, h2]⟩
  · intro h1 h2
    subst h1
    simp [export_book, load_book, h, h2, export_single_file]

/-- Witness for C7 at a stored book and the unsupported format `"epub"`. -/
theorem export_format_routing_witness :
    storage1 "b" = .ok book1 ∧
    (((∃ m, (export_book ctx0 storage1 ([] : FS) "b" "epub" none).2 =
        .error (.unsupportedFormat m)) ↔ ("epub" ≠ "markdown" ∧ "epub" ≠ "pdf")) ∧
    ("epub" = "markdown" → none ≠ some "chapters" →
      export_book ctx0 storage1 ([] : FS) "b" "epub" none =
        ((export_single_file ctx0 ([] : FS) book1 "b").1,
         .ok (ExportResult.mk (export_single_file ctx0 ([] : FS) book1 "b").2
           (sanitize_filename book1.metadata.title 200 ++ "_single.md")
           "text/markdown" true)))) :=
  ⟨rfl, export_format_routing ctx0 storage1 ([] : FS) "b" "epub" none book1 rfl⟩

/- ### Every successful export result is flagged transient -/

/-- C10.  Every `ExportResult` a successful `export_book` call returns, for
every format and mode, carries `cleanup = True`: the artifact is flagged for
deletion after being served. -/
theorem export_result_cleanup (ctx : ExportCtx) (storage : Storage) (fs : FS)
    (bookId format : String) (mode : Option String) (r : ExportResult)
    (h : (export_book ctx storage fs bookId format mode).2 = .ok r) :
    r.cleanup = true := by
  unfold export_book at h
  cases hs : storage bookId with
  | missing => simp [load_book, hs] at h
  | corrupt => simp [load_book, hs] at h
  | ok book =>
    simp only [load_book, hs] at h
    by_cases h1 : format = "markdown"
    · by_cases h2 : mode = some "chapters"
      · simp [h1, h2] at h
        rw [← h]
      · simp [h1, h2] at h
        rw [← h]
    · by_cases h2 : format = "pdf"
      · simp [h1, h2] at h
        rw [← h]
      · simp [h1, h2] at h

/-- Witness for C10 at a concrete single-file markdown export. -/
theorem export_result_cleanup_witness :
    (export_book ctx0 storage1 ([] : FS) "b" "markdown" none).2 =
      .ok (ExportResult.mk ("books/b/exports/T_single.md") "T_single.md"
        "text/markdown" true) ∧
    (ExportResult.mk ("books/b/exports/T_single.md") "T_single.md"
      "text/markdown" true).cleanup = true :=
  ⟨rfl, export_result_cleanup ctx0 storage1 ([] : FS) "b" "markdown" none _ rfl⟩

/- ### Missing images degrade gracefully -/

theorem alookup_some_mem {α : Type} :
    ∀ (l : List (String × α)) (k : String) (v : α),
      alookup l k = some v → (k, v) ∈ l := by
  intro l
  induction l with
  | nil =>
    intro k v h
    simp [alookup] at h
  | cons p rest ih =>
    intro k v h
    obtain ⟨k0, v0⟩ := p
    rw [alookup] at h
    by_cases he : k0 = k
    · rw [if_pos he] at h
      simp at h
      simp [he, h]
    · rw [if_neg he] at h
      exact List.mem_cons.mpr (Or.inr (ih k v h))

theorem mem_upsert {α : Type} :
    ∀ (l : List (String × α)) (k : String) (v : α) (p : String × α),
      p ∈ upsert l k v → p ∈ l ∨ p = (k, v) := by
  intro l
  induction l with
  | nil =>
    intro k v p h
    simp [upsert] at h
    exact Or.inr h
  | cons q rest ih =>
    intro k v p h
    obtain ⟨k0, v0⟩ := q
    rw [upsert] at h
    by_cases he : k0 = k
    · rw [if_pos he] at h
      rcases List.mem_cons.mp h with h1 | h2
      · exact Or.inr h1
      · exact Or.inl (List.mem_cons.mpr (Or.inr h2))
    · rw [if_neg he] at h
      rcases List.mem_cons.mp h with h1 | h2
      · exact Or.inl (List.mem_cons.mpr (Or.inl h1))
      · rcases ih k v p h2 with h3 | h4
        · exact Or.inl (List.mem_cons.mpr (Or.inr h3))
        · exact Or.inr h4

theorem get_base64_data_uri_miss (ctx : ExportCtx) (bookId : String) (cache : ImageCache)
    (f : String) (hc : CacheConsistent ctx bookId cache)
    (hmiss : ctx.imageFs bookId f = none) :
    get_base64_data_uri ctx bookId cache f = (none, cache) := by
  rw [get_base64_data_uri]
  cases ha : alookup cache f with
  | some v =>
    exact absurd hmiss (hc (f, v) (alookup_some_mem cache f v ha))
  | none =>
    rw [hmiss]

theorem get_base64_data_uri_consistent (ctx : ExportCtx) (bookId : String)
    (cache : ImageCache) (f : String) (hc : CacheConsistent ctx bookId cache) :
    CacheConsistent ctx bookId (get_base64_data_uri ctx bookId cache f).2 := by
  rw [get_base64_data_uri]
  cases ha : alookup cache f with
  | some v => exact hc
  | none =>
    cases hfs : ctx.imageFs bookId f with
    | none => exact hc
    | some bytes =>
      intro p hp
      rcases mem_upsert cache f _ p hp with h1 | h2
      · exact hc p h1
      · rw [h2]
        simp [hfs]

/-- C8.  For every image filename whose file is absent or unreadable
(`imageFs` returns `none` — `get_base64_data_uri` is a total function, so no
outcome raises), the Asset Embedder returns `None` and leaves its cache
untouched, and the encoders' image-rewriting loop leaves the original
`<img src>` reference unmodified at its position in the chapter content
instead of aborting the export. -/
theorem image_missing_degrades (ctx : ExportCtx) (bookId : String) :
    ∀ (nodes : List HtmlNode) (cache : ImageCache) (j : Nat) (src : String),
      CacheConsistent ctx bookId cache →
      ctx.imageFs bookId (basename src) = none →
      nodes.get? j = some (.img src) →
      get_base64_data_uri ctx bookId cache (basename src) = (none, cache) ∧
      (rewriteImages ctx bookId nodes cache).1.get? j = some (.img src) := by
  intro nodes
  induction nodes with
  | nil =>
    intro cache j src _ _ hj
    simp at hj
  | cons n rest ih =>
    intro cache j src hc hmiss hj
    refine ⟨get_base64_data_uri_miss ctx bookId cache _ hc hmiss, ?_⟩
    cases n with
    | other s =>
      have hr : (rewriteImages ctx bookId (.other s :: rest) cache).1 =
          .other s :: (rewriteImages ctx bookId rest cache).1 := by
        simp [rewriteImages]
      rw [hr]
      cases j with
      | zero => simp at hj
      | succ j0 =>
        rw [List.get?_cons_succ] at hj
        rw [List.get?_cons_succ]
        exact (ih cache j0 src hc hmiss hj).2
    | img s =>
      by_cases hs : s = ""
      · have hr : (rewriteImages ctx bookId (.img s :: rest) cache).1 =
            .img s :: (rewriteImages ctx bookId rest cache).1 := by
          simp [rewriteImages, hs]
        rw [hr]
        cases j with
        | zero =>
          simp at hj
          simpa using hj
        | succ j0 =>
          rw [List.get?_cons_succ] at hj
          rw [List.get?_cons_succ]
          exact (ih cache j0 src hc hmiss hj).2
      · cases hres : get_base64_data_uri ctx bookId cache (basename s) with
        | mk opt c1 =>
          have hc1 : CacheConsistent ctx bookId c1 := by
            have := get_base64_data_uri_consistent ctx bookId cache (basename s) hc
            rw [hres] at this
            exact this
          cases opt with
          | some uri =>
            have hr : (rewriteImages ctx bookId (.img s :: rest) cache).1 =
                .img uri :: (rewriteImages ctx bookId rest c1).1 := by
              simp [rewriteImages, hs, hres]
            rw [hr]
            cases j with
            | zero =>
              simp at hj
              exfalso
              rw [← hj] at hmiss
              have := get_base64_data_uri_miss ctx bookId cache (basename s) hc hmiss
              rw [hres] at this
              simp at this
            | succ j0 =>
              rw [List.get?_cons_succ] at hj
              rw [List.get?_cons_succ]
              exact (ih c1 j0 src hc1 hmiss hj).2
          | none =>
            have hr : (rewriteImages ctx bookId (.img s :: rest) cache).1 =
                .img s :: (rewriteImages ctx bookId rest c1).1 := by
              simp [rewriteImages, hs, hres]
            rw [hr]
            cases j with
            | zero =>
              simp at hj
              simpa using hj
            | succ j0 =>
              rw [List.get?_cons_succ] at hj
              rw [List.get?_cons_succ]
              exact (ih c1 j0 src hc1 hmiss hj).2

/-- Witness for C8 at a fresh processor and a single unresolvable image. -/
theorem image_missing_degrades_witness :
    CacheConsistent ctx0 "b" ([] : ImageCache) ∧
    ctx0.imageFs "b" (basename "images/pic.jpg") = none ∧
    ([HtmlNode.img "images/pic.jpg"].get? 0 = some (.img "images/pic.jpg")) ∧
    (get_base64_data_uri ctx0 "b" ([] : ImageCache) (basename "images/pic.jpg") =
      (none, ([] : ImageCache)) ∧
    (rewriteImages ctx0 "b" [HtmlNode.img "images/pic.jpg"] ([] : ImageCache)).1.get? 0 =
      some (.img "images/pic.jpg")) :=
  ⟨fun p hp => absurd hp (by simp), rfl, rfl,
    image_missing_degrades ctx0 "b" [HtmlNode.img "images/pic.jpg"] ([] : ImageCache) 0
      "images/pic.jpg" (fun p hp => absurd hp (by simp)) rfl rfl⟩

/- ### Duplicate imports are rejected before parsing -/

theorem find_dup_of_exists :
    ∀ (books : List (String × BookFolder)) (h : String),
      (∃ p ∈ books, strEndsWith p.1 "_data" = true ∧ p.2.sourceHash = some h) →
      ∃ dupId, find_duplicate_by_hash books h = some dupId := by
  intro books
  induction books with
  | nil =>
    intro h hex
    obtain ⟨p, hp, _⟩ := hex
    simp at hp
  | cons q rest ih =>
    intro h hex
    obtain ⟨k0, f0⟩ := q
    rw [find_duplicate_by_hash]
    by_cases he : strEndsWith k0 "_data" = true
    · rw [if_pos he]
      cases hsh : f0.sourceHash with
      | some sh =>
        by_cases hsame : sh = h
        · refine ⟨k0, ?_⟩
          show (if sh = h then some k0 else find_duplicate_by_hash rest h) = some k0
          rw [if_pos hsame]
        · have hrest : ∃ p ∈ rest, strEndsWith p.1 "_data" = true ∧ p.2.sourceHash = some h := by
            obtain ⟨p, hp, hpe, hph⟩ := hex
            rcases List.mem_cons.mp hp with h1 | h2
            · exfalso
              rw [h1] at hph
              simp at hph
              rw [hph] at hsh
              simp at hsh
              exact hsame hsh.symm
            · exact ⟨p, h2, hpe, hph⟩
          obtain ⟨dupId, hdup⟩ := ih h hrest
          refine ⟨dupId, ?_⟩
          show (if sh = h then some k0 else find_duplicate_by_hash rest h) = some dupId
          rw [if_neg hsame]
          exact hdup
      | none =>
        have hrest : ∃ p ∈ rest, strEndsWith p.1 "_data" = true ∧ p.2.sourceHash = some h := by
          obtain ⟨p, hp, hpe, hph⟩ := hex
          rcases List.mem_cons.mp hp with h1 | h2
          · exfalso
            rw [h1] at hph
            simp at hph
            rw [hph] at hsh
            simp at hsh
          · exact ⟨p, h2, hpe, hph⟩
        exact ih h hrest
    · rw [if_neg he]
      have hrest : ∃ p ∈ rest, strEndsWith p.1 "_data" = true ∧ p.2.sourceHash = some h := by
        obtain ⟨p, hp, hpe, hph⟩ := hex
        rcases List.mem_cons.mp hp with h1 | h2
        · exfalso
          rw [h1] at hpe
          simp at hpe
          exact he hpe
        · exact ⟨p, h2, hpe, hph⟩
      exact ih h hrest

/-- C9.  For every uploaded `.epub` file whose content hash equals the
stored fingerprint of an already-imported book, the import is rejected with
the 409 duplicate condition reporting the existing book's title (its id when
the existing book cannot be loaded), the books directory is unchanged (no
new folder), and the result is independent of the parser — the parse step
never runs. -/
theorem duplicate_import_rejected (st : BackendState) (parse : Upload → Book) (up : Upload)
    (h1 : up.filename ≠ "")
    (h2 : strEndsWith (strToLower up.filename) ".epub" = true)
    (h3 : ∃ p ∈ st.books, strEndsWith p.1 "_data" = true ∧ p.2.sourceHash = some up.hash) :
    ∃ dupId, find_duplicate_by_hash st.books up.hash = some dupId ∧
      (∀ parse2 : Upload → Book, import_book st parse2 up = import_book st parse up) ∧
      import_book st parse up =
        (st, .conflict ("Book already imported: " ++
          (match load_book_cached st dupId with
           | some b => b.metadata.title
           | none => dupId))) := by
  obtain ⟨dupId, hdup⟩ := find_dup_of_exists st.books up.hash h3
  refine ⟨dupId, hdup, ?_, ?_⟩
  · intro parse2
    simp [import_book, h1, h2, hdup]
  · simp [import_book, h1, h2, hdup]

/-- Witness for C9 at `state9` (one imported folder with fingerprint `h1`)
and the upload `Second.epub` carrying the same hash. -/
theorem duplicate_import_rejected_witness :
    upload9.filename ≠ "" ∧
    strEndsWith (strToLower upload9.filename) ".epub" = true ∧
    (∃ p ∈ state9.books, strEndsWith p.1 "_data" = true ∧
      p.2.sourceHash = some upload9.hash) ∧
    (∃ dupId, find_duplicate_by_hash state9.books upload9.hash = some dupId ∧
      (∀ parse2 : Upload → Book,
        import_book state9 parse2 upload9 = import_book state9 (fun _ => book1) upload9) ∧
      import_book state9 (fun _ => book1) upload9 =
        (state9, .conflict ("Book already imported: " ++
          (match load_book_cached state9 dupId with
           | some b => b.metadata.title
           | none => dupId)))) := by
  have h1 : upload9.filename ≠ "" := by decide
  have h2 : strEndsWith (strToLower upload9.filename) ".epub" = true := by decide
  have h3 : ∃ p ∈ state9.books, strEndsWith p.1 "_data" = true ∧
      p.2.sourceHash = some upload9.hash := by
    refine ⟨("first_data", { sourceHash := some "h1", book := some book1 }), ?_, ?_, rfl⟩
    · exact List.mem_cons_self _ _
    · decide
  exact ⟨h1, h2, h3, duplicate_import_rejected state9 (fun _ => book1) upload9 h1 h2 h3⟩

end Reader3


